import Mathlib

/-!
Verification of the Research-Assistant repository's document pipeline.

Python strings are modelled as `List Char`; the ASCII fragment of Python's
whitespace/digit/letter classes is modelled with Lean's `Char` predicates.
External libraries (chromadb, PyPDF2, the LLM HTTP client, the bibliographic
source APIs, the `re` module where a claim does not depend on the pattern's
internals) are modelled as oracle parameters, exactly as they appear at the
call sites in the source.
-/

namespace ResearchAssistant

/-- Python's `\s` / `str.strip` whitespace class (ASCII fragment). -/
def pyWs (c : Char) : Bool := c.isWhitespace

/-- Python's `str.strip()`: remove leading and trailing whitespace. -/
def pyStrip (l : List Char) : List Char :=
  ((l.dropWhile pyWs).reverse.dropWhile pyWs).reverse

/-- Characters on which the chunker's sentence pattern `(?<=[.!?])\s+` cuts. -/
def isSentPunct (c : Char) : Bool := c == '.' || c == '!' || c == '?'

/-- Scanner for `re.split(r'(?<=[.!?])\s+', text)`: a separator is a maximal
whitespace run whose preceding character is `.`, `!` or `?`.  `cur` holds the
current piece reversed; the flag is true while consuming a separator run
(after which the lookbehind sees whitespace, so no new separator can start
until a non-whitespace character has been read). -/
def reSplitSentencesAux : Bool → List Char → List Char → List (List Char)
  | _, cur, [] => [cur.reverse]
  | true, cur, c :: rest =>
    if pyWs c then reSplitSentencesAux true cur rest
    else reSplitSentencesAux false [c] rest
  | false, cur, c :: rest =>
    if (match cur with | p :: _ => isSentPunct p | [] => false) && pyWs c then
      cur.reverse :: reSplitSentencesAux true [] rest
    else
      reSplitSentencesAux false (c :: cur) rest

/-- Model of `re.split(r'(?<=[.!?])\s+', text)` from `chunk_text`. -/
def reSplitSentences (text : List Char) : List (List Char) :=
  reSplitSentencesAux false [] text

/-- Config.CHUNK_SIZE from `config.py`. -/
def CHUNK_SIZE : Nat := 1000

/-- Config.CHUNK_OVERLAP from `config.py`. -/
def CHUNK_OVERLAP : Nat := 200

/-- The sentence-accumulation loop of `DocumentProcessor.chunk_text`
(`document_processor.py` lines 43-52).  First argument list is the remaining
sentences, second is `current_chunk`. -/
def chunkLoop (chunk_size : Nat) : List (List Char) → List Char → List (List Char)
  | [], current_chunk =>
    if current_chunk.isEmpty then [] else [pyStrip current_chunk]
  | sentence :: rest, current_chunk =>
    if current_chunk.length + sentence.length < chunk_size then
      chunkLoop chunk_size rest (current_chunk ++ sentence ++ [' '])
    else if current_chunk.isEmpty then
      chunkLoop chunk_size rest (sentence ++ [' '])
    else
      pyStrip current_chunk :: chunkLoop chunk_size rest (sentence ++ [' '])

/-- Model of `DocumentProcessor.chunk_text(text, chunk_size, overlap)`.
Python's `chunk_size or self.config.CHUNK_SIZE` falls back to the config value
when the argument is falsy (`None` or `0`); we model the argument as `Nat`
with `0` standing for the falsy cases.  `overlap` is bound the same way in the
source and then never used. -/
def chunk_text (text : List Char) (chunk_size : Nat) (overlap : Nat) : List (List Char) :=
  let cs := if chunk_size = 0 then CHUNK_SIZE else chunk_size
  let _ov := if overlap = 0 then CHUNK_OVERLAP else overlap
  chunkLoop cs (reSplitSentences text) []

/-- Buffer built by accumulating the sentences of `g`: each sentence is
appended followed by one space, matching `current_chunk += sentence + " "`. -/
def sentenceBuffer (g : List (List Char)) : List Char :=
  (g.map (fun s => s ++ [' '])).flatten

lemma pyStrip_length_le (l : List Char) : (pyStrip l).length ≤ l.length := by
  unfold pyStrip
  calc ((l.dropWhile pyWs).reverse.dropWhile pyWs).reverse.length
      = ((l.dropWhile pyWs).reverse.dropWhile pyWs).length := List.length_reverse _
    _ ≤ (l.dropWhile pyWs).reverse.length := (List.dropWhile_sublist _).length_le
    _ = (l.dropWhile pyWs).length := List.length_reverse _
    _ ≤ l.length := (List.dropWhile_sublist _).length_le

lemma pyStrip_append_space (x : List Char) : pyStrip (x ++ [' ']) = pyStrip x := by
  unfold pyStrip
  rw [List.dropWhile_append]
  by_cases h : (x.dropWhile pyWs).isEmpty = true
  · rw [if_pos h, List.isEmpty_iff.mp h]
    decide
  · rw [if_neg h, List.reverse_append]
    simp [List.dropWhile_cons, show pyWs ' ' = true from by decide]

lemma pyStrip_ne_nil {l : List Char} (h : ∃ c ∈ l, pyWs c = false) : pyStrip l ≠ [] := by
  obtain ⟨c, hc, hcw⟩ := h
  intro hnil
  have h1 : (l.dropWhile pyWs).reverse.dropWhile pyWs = [] := by
    have := congrArg List.reverse hnil
    simpa [pyStrip] using this
  have h2 : ∀ x ∈ (l.dropWhile pyWs).reverse, pyWs x = true :=
    List.dropWhile_eq_nil_iff.mp h1
  have h3 : ∀ x ∈ l.dropWhile pyWs, pyWs x = true := by
    intro x hx; exact h2 x (List.mem_reverse.mpr hx)
  have h4 : pyWs c = true := by
    have := List.takeWhile_append_dropWhile pyWs l
    rcases List.mem_append.mp (by rw [this]; exact hc) with hk | hk
    · exact List.mem_takeWhile_imp hk
    · exact h3 c hk
  rw [h4] at hcw
  exact Bool.true_eq_false.mp hcw

lemma sentenceBuffer_eq_nil_iff (pg : List (List Char)) :
    sentenceBuffer pg = [] ↔ pg = [] := by
  cases pg with
  | nil => simp [sentenceBuffer]
  | cons s t =>
    simp only [sentenceBuffer, List.map_cons, List.flatten_cons]
    constructor
    · intro h
      exact absurd h (List.append_ne_nil_of_left_ne_nil (by simp) _)
    · intro h; exact absurd h (by simp)

lemma sentenceBuffer_snoc (pg : List (List Char)) (s : List Char) :
    sentenceBuffer (pg ++ [s]) = sentenceBuffer pg ++ (s ++ [' ']) := by
  simp [sentenceBuffer, List.map_append, List.flatten_append]

/-- The accumulation loop emits exactly the stripped buffers of a partition of
its input sentences into consecutive non-empty groups; the pending buffer `pg`
becomes part of the first group. -/
lemma chunkLoop_partition (cs : Nat) :
    ∀ (sents pg : List (List Char)),
    ∃ gs : List (List (List Char)),
      gs.flatten = pg ++ sents ∧
      (∀ g ∈ gs, g ≠ []) ∧
      chunkLoop cs sents (sentenceBuffer pg) =
        gs.map (fun g => pyStrip (sentenceBuffer g)) := by
  intro sents
  induction sents with
  | nil =>
    intro pg
    by_cases hpg : pg = []
    · refine ⟨[], by simp [hpg], by simp, ?_⟩
      simp [chunkLoop, hpg, sentenceBuffer]
    · refine ⟨[pg], by simp, by simpa using hpg, ?_⟩
      have hne : (sentenceBuffer pg).isEmpty = false := by
        rw [Bool.eq_false_iff]
        intro h
        exact hpg ((sentenceBuffer_eq_nil_iff pg).mp (List.isEmpty_iff.mp h))
      simp [chunkLoop, hne]
  | cons s rest ih =>
    intro pg
    by_cases hlt : (sentenceBuffer pg).length + s.length < cs
    · obtain ⟨gs, hflat, hne, heq⟩ := ih (pg ++ [s])
      refine ⟨gs, by simpa using hflat, hne, ?_⟩
      rw [show chunkLoop cs (s :: rest) (sentenceBuffer pg)
            = chunkLoop cs rest (sentenceBuffer pg ++ s ++ [' ']) from by
        simp [chunkLoop, hlt]]
      rw [show sentenceBuffer pg ++ s ++ [' '] = sentenceBuffer (pg ++ [s]) from by
        rw [sentenceBuffer_snoc, List.append_assoc]]
      exact heq
    · by_cases hpg : pg = []
      · obtain ⟨gs, hflat, hne, heq⟩ := ih [s]
        refine ⟨gs, by simpa [hpg] using hflat, hne, ?_⟩
        have hbempty : (sentenceBuffer pg).isEmpty = true := by
          rw [List.isEmpty_iff, sentenceBuffer_eq_nil_iff]; exact hpg
        rw [show chunkLoop cs (s :: rest) (sentenceBuffer pg)
              = chunkLoop cs rest (s ++ [' ']) from by
          simp [chunkLoop, hlt, hbempty]]
        rw [show s ++ [' '] = sentenceBuffer [s] from by simp [sentenceBuffer]]
        exact heq
      · obtain ⟨gs, hflat, hne, heq⟩ := ih [s]
        refine ⟨pg :: gs, by simp [hflat], ?_, ?_⟩
        · intro g hg
          rcases List.mem_cons.mp hg with h | h
          · rw [h]; exact hpg
          · exact hne g h
        · have hbempty : (sentenceBuffer pg).isEmpty = false := by
            rw [Bool.eq_false_iff]
            intro h
            exact hpg ((sentenceBuffer_eq_nil_iff pg).mp (List.isEmpty_iff.mp h))
          rw [show chunkLoop cs (s :: rest) (sentenceBuffer pg)
                = pyStrip (sentenceBuffer pg) :: chunkLoop cs rest (s ++ [' ']) from by
            simp [chunkLoop, hlt, hbempty]]
          rw [show s ++ [' '] = sentenceBuffer [s] from by simp [sentenceBuffer]]
          rw [heq, List.map_cons]

/-- If every remaining sentence fits in `cs` and the stripped pending buffer
fits in `cs`, every emitted chunk has length at most `cs`. -/
lemma chunkLoop_length_le (cs : Nat) :
    ∀ (sents : List (List Char)) (cur : List Char),
    (∀ s ∈ sents, s.length ≤ cs) → (pyStrip cur).length ≤ cs →
    ∀ ch ∈ chunkLoop cs sents cur, ch.length ≤ cs := by
  intro sents
  induction sents with
  | nil =>
    intro cur _ hcur ch hch
    simp only [chunkLoop] at hch
    by_cases he : cur.isEmpty = true
    · rw [if_pos he] at hch
      exact absurd hch (List.not_mem_nil ch)
    · rw [if_neg he] at hch
      rw [List.mem_singleton.mp hch]
      exact hcur
  | cons s rest ih =>
    intro cur hall hcur ch hch
    have hs : s.length ≤ cs := hall s (List.mem_cons_self s rest)
    have hrest : ∀ t ∈ rest, t.length ≤ cs := fun t ht => hall t (List.mem_cons_of_mem s ht)
    have hreset : (pyStrip (s ++ [' '])).length ≤ cs := by
      rw [pyStrip_append_space]
      exact le_trans (pyStrip_length_le s) hs
    by_cases hlt : cur.length + s.length < cs
    · have hacc : (pyStrip (cur ++ s ++ [' '])).length ≤ cs := by
        rw [pyStrip_append_space]
        calc (pyStrip (cur ++ s)).length ≤ (cur ++ s).length := pyStrip_length_le _
          _ = cur.length + s.length := List.length_append _ _
          _ ≤ cs := Nat.le_of_lt hlt
      rw [show chunkLoop cs (s :: rest) cur
            = chunkLoop cs rest (cur ++ s ++ [' ']) from by simp [chunkLoop, hlt]] at hch
      exact ih _ hrest hacc ch hch
    · by_cases he : cur.isEmpty = true
      · rw [show chunkLoop cs (s :: rest) cur
              = chunkLoop cs rest (s ++ [' ']) from by simp [chunkLoop, hlt, he]] at hch
        exact ih _ hrest hreset ch hch
      · rw [show chunkLoop cs (s :: rest) cur
              = pyStrip cur :: chunkLoop cs rest (s ++ [' ']) from by
            simp [chunkLoop, hlt, he]] at hch
        rcases List.mem_cons.mp hch with h | h
        · rw [h]; exact hcur
        · exact ih _ hrest hreset ch h

lemma chunk_text_of_pos (text : List Char) {cs : Nat} (ov : Nat) (hcs : 0 < cs) :
    chunk_text text cs ov = chunkLoop cs (reSplitSentences text) [] := by
  unfold chunk_text
  rw [if_neg (Nat.pos_iff_ne_zero.mp hcs)]

/-- Claim C1 (counterexample): the claim "no chunk is the empty string" fails
on the code.  The input text "a. " is non-empty and the chunk size 1 is
positive, yet `chunk_text` returns `["a.", ""]`, whose second chunk is the
empty string: the trailing empty sentence produced by `re.split` starts a new
buffer `" "` which is stripped to `""` and emitted. -/
theorem chunk_text_empty_chunk_counterexample :
    "a. ".toList ≠ [] ∧ 0 < 1 ∧
      chunk_text "a. ".toList 1 1 = ["a.".toList, []] ∧
      [] ∈ chunk_text "a. ".toList 1 1 := by
  refine ⟨by decide, by decide, by decide, ?_⟩
  rw [show chunk_text "a. ".toList 1 1 = ["a.".toList, []] from by decide]
  simp

/-- Claim C1 (amended): for every non-empty text and positive chunk size,
`chunk_text` returns the stripped buffers of a partition of the sentences
(as split by the lookbehind rule) into consecutive non-empty groups, so the
chunks reconstruct the sentences in order; a chunk can be empty only when the
buffer it strips is entirely whitespace; and when no single sentence's length
reaches beyond `chunk_size`, no chunk's length exceeds `chunk_size`. -/
theorem chunk_text_partition_spec (text : List Char) (cs ov : Nat)
    (_ht : text ≠ []) (hcs : 0 < cs) :
    ∃ gs : List (List (List Char)),
      gs.flatten = reSplitSentences text ∧
      (∀ g ∈ gs, g ≠ []) ∧
      chunk_text text cs ov = gs.map (fun g => pyStrip (sentenceBuffer g)) ∧
      (∀ g ∈ gs, (∃ c ∈ sentenceBuffer g, pyWs c = false) →
        pyStrip (sentenceBuffer g) ≠ []) ∧
      ((∀ s ∈ reSplitSentences text, s.length ≤ cs) →
        ∀ ch ∈ chunk_text text cs ov, ch.length ≤ cs) := by
  obtain ⟨gs, hflat, hne, heq⟩ := chunkLoop_partition cs (reSplitSentences text) []
  rw [List.nil_append] at hflat
  refine ⟨gs, hflat, hne, ?_, ?_, ?_⟩
  · rw [chunk_text_of_pos text ov hcs]
    simpa [sentenceBuffer] using heq
  · intro g _ hex
    exact pyStrip_ne_nil hex
  · intro hall ch hch
    rw [chunk_text_of_pos text ov hcs] at hch
    exact chunkLoop_length_le cs (reSplitSentences text) [] hall
      (by simp [pyStrip]) ch hch

/-- Claim C1 witness: the amended statement evaluated at the concrete input
"Hi there. Ok! Yes? End" with chunk size 12. -/
theorem chunk_text_partition_spec_witness :
    ∃ gs : List (List (List Char)),
      gs.flatten = reSplitSentences "Hi there. Ok! Yes? End".toList ∧
      (∀ g ∈ gs, g ≠ []) ∧
      chunk_text "Hi there. Ok! Yes? End".toList 12 1 =
        gs.map (fun g => pyStrip (sentenceBuffer g)) ∧
      (∀ g ∈ gs, (∃ c ∈ sentenceBuffer g, pyWs c = false) →
        pyStrip (sentenceBuffer g) ≠ []) ∧
      ((∀ s ∈ reSplitSentences "Hi there. Ok! Yes? End".toList, s.length ≤ 12) →
        ∀ ch ∈ chunk_text "Hi there. Ok! Yes? End".toList 12 1, ch.length ≤ 12) :=
  chunk_text_partition_spec "Hi there. Ok! Yes? End".toList 12 1 (by decide) (by decide)

/-- Claim C6 (confirmed): the `overlap` parameter has no effect on the output
of `chunk_text` — the source binds it and never uses it — and the chunks are
the stripped buffers of disjoint consecutive groups of sentences, so adjacent
chunks never share reintroduced overlapping content. -/
theorem chunk_text_overlap_unused (text : List Char) (cs o1 o2 : Nat) :
    chunk_text text cs o1 = chunk_text text cs o2 ∧
    ∃ gs : List (List (List Char)),
      gs.flatten = reSplitSentences text ∧
      (∀ g ∈ gs, g ≠ []) ∧
      chunk_text text cs o1 = gs.map (fun g => pyStrip (sentenceBuffer g)) := by
  constructor
  · rfl
  · obtain ⟨gs, hflat, hne, heq⟩ :=
      chunkLoop_partition (if cs = 0 then CHUNK_SIZE else cs) (reSplitSentences text) []
    rw [List.nil_append] at hflat
    refine ⟨gs, hflat, hne, ?_⟩
    show chunkLoop (if cs = 0 then CHUNK_SIZE else cs) (reSplitSentences text) [] = _
    simpa [sentenceBuffer] using heq

/-- Python's `str.split()` with no argument: split on whitespace runs and
drop empty pieces.  `cur` holds the current word reversed. -/
def splitWordsAux (cur : List Char) : List Char → List (List Char)
  | [] => if cur.isEmpty then [] else [cur.reverse]
  | c :: rest =>
    if pyWs c then
      if cur.isEmpty then splitWordsAux [] rest
      else cur.reverse :: splitWordsAux [] rest
    else splitWordsAux (c :: cur) rest

def splitWords (s : List Char) : List (List Char) := splitWordsAux [] s

/-- Python's `str.lower()` (ASCII fragment). -/
def pyLower (s : List Char) : List Char := s.map Char.toLower

/-- Python's `set(str.split())` used by `_similarity_score`. -/
def wordSet (s : List Char) : Finset (List Char) := (splitWords s).toFinset

/-- Model of `PaperSearcher._similarity_score` (`paper_search.py` lines
162-173): Jaccard similarity of the whitespace-tokenized word sets, as an
exact rational (Python computes the same ratio in floating point). -/
def _similarity_score (str1 str2 : List Char) : ℚ :=
  let words1 := wordSet str1
  let words2 := wordSet str2
  if words1 = ∅ ∨ words2 = ∅ then 0
  else
    let intersection := words1 ∩ words2
    let union := words1 ∪ words2
    if union = ∅ then 0 else (intersection.card : ℚ) / (union.card : ℚ)

/-- PaperRecord fields used by `search_papers`: `title`, the optional
`citations` count (absent for ArXiv records) and the `published` string. -/
structure Paper where
  title : List Char
  citations : Option Int
  published : List Char
deriving DecidableEq

/-- The duplicate test of `search_papers` (lines 145-148): the incoming
lowercased title is a duplicate when its similarity with ANY previously seen
title exceeds 0.8.  `seen_titles` is a Python set; we model it as the list of
insertions, which `any` inspects the same way. -/
def isDuplicateTitle (seen_titles : List (List Char)) (title_lower : List Char) : Bool :=
  seen_titles.any (fun seen_title =>
    _similarity_score title_lower seen_title > (8 : ℚ) / 10)

/-- The dedup loop of `search_papers` (lines 139-152): keep a paper unless it
is a duplicate; the lowercased titles of kept papers are added to
`seen_titles`. -/
def dedupPapers (seen_titles : List (List Char)) : List Paper → List Paper
  | [] => []
  | paper :: rest =>
    let title_lower := pyLower paper.title
    if isDuplicateTitle seen_titles title_lower then
      dedupPapers seen_titles rest
    else
      paper :: dedupPapers (title_lower :: seen_titles) rest

/-- State of `seen_titles` after the dedup loop has processed a list. -/
def seenAfter (seen_titles : List (List Char)) : List Paper → List (List Char)
  | [] => seen_titles
  | paper :: rest =>
    let title_lower := pyLower paper.title
    if isDuplicateTitle seen_titles title_lower then
      seenAfter seen_titles rest
    else
      seenAfter (title_lower :: seen_titles) rest

lemma dedupPapers_cons_dup {seen : List (List Char)} {p : Paper} (rest : List Paper)
    (h : isDuplicateTitle seen (pyLower p.title) = true) :
    dedupPapers seen (p :: rest) = dedupPapers seen rest := by
  simp [dedupPapers, h]

lemma dedupPapers_cons_keep {seen : List (List Char)} {p : Paper} (rest : List Paper)
    (h : isDuplicateTitle seen (pyLower p.title) = false) :
    dedupPapers seen (p :: rest) =
      p :: dedupPapers (pyLower p.title :: seen) rest := by
  simp [dedupPapers, h]

lemma seenAfter_cons_dup {seen : List (List Char)} {p : Paper} (rest : List Paper)
    (h : isDuplicateTitle seen (pyLower p.title) = true) :
    seenAfter seen (p :: rest) = seenAfter seen rest := by
  simp [seenAfter, h]

lemma seenAfter_cons_keep {seen : List (List Char)} {p : Paper} (rest : List Paper)
    (h : isDuplicateTitle seen (pyLower p.title) = false) :
    seenAfter seen (p :: rest) = seenAfter (pyLower p.title :: seen) rest := by
  simp [seenAfter, h]

lemma dedupPapers_append (l1 : List Paper) :
    ∀ (seen : List (List Char)) (l2 : List Paper),
    dedupPapers seen (l1 ++ l2) =
      dedupPapers seen l1 ++ dedupPapers (seenAfter seen l1) l2 := by
  induction l1 with
  | nil => intro seen l2; simp [dedupPapers, seenAfter]
  | cons p t ih =>
    intro seen l2
    rw [List.cons_append]
    cases hd : isDuplicateTitle seen (pyLower p.title) with
    | true =>
      rw [dedupPapers_cons_dup _ hd, dedupPapers_cons_dup _ hd,
        seenAfter_cons_dup _ hd, ih seen l2]
    | false =>
      rw [dedupPapers_cons_keep _ hd, dedupPapers_cons_keep _ hd,
        seenAfter_cons_keep _ hd, ih (pyLower p.title :: seen) l2, List.cons_append]

lemma mem_seenAfter (l : List Paper) :
    ∀ (seen : List (List Char)) (x : List Char),
    x ∈ seenAfter seen l ↔
      x ∈ seen ∨ ∃ p ∈ dedupPapers seen l, x = pyLower p.title := by
  induction l with
  | nil => intro seen x; simp [seenAfter, dedupPapers]
  | cons p t ih =>
    intro seen x
    cases hd : isDuplicateTitle seen (pyLower p.title) with
    | true =>
      rw [seenAfter_cons_dup _ hd, dedupPapers_cons_dup _ hd]
      exact ih seen x
    | false =>
      rw [seenAfter_cons_keep _ hd, dedupPapers_cons_keep _ hd, ih _ x]
      constructor
      · rintro (h | ⟨q, hq, hx⟩)
        · rcases List.mem_cons.mp h with h | h
          · exact Or.inr ⟨p, List.mem_cons_self _ _, h⟩
          · exact Or.inl h
        · exact Or.inr ⟨q, List.mem_cons_of_mem _ hq, hx⟩
      · rintro (h | ⟨q, hq, hx⟩)
        · exact Or.inl (List.mem_cons_of_mem _ h)
        · rcases List.mem_cons.mp hq with h' | h'
          · subst h'
            exact Or.inl (hx ▸ List.mem_cons_self _ _)
          · exact Or.inr ⟨q, h', hx⟩

/-- Evaluation rule for `_similarity_score` when both word sets are
non-empty. -/
lemma similarity_score_eval (s1 s2 : List Char) (i u : Nat)
    (h1 : wordSet s1 ≠ ∅) (h2 : wordSet s2 ≠ ∅)
    (hi : (wordSet s1 ∩ wordSet s2).card = i)
    (hu : (wordSet s1 ∪ wordSet s2).card = u) :
    _similarity_score s1 s2 = (i : ℚ) / (u : ℚ) := by
  unfold _similarity_score
  rw [if_neg (by tauto)]
  rw [if_neg (by
    intro h
    exact h1 (Finset.union_eq_empty.mp h).1)]
  rw [hi, hu]

example : _similarity_score "a b c d e".toList "a b c d".toList = (8 : ℚ) / 10 := by
  rw [similarity_score_eval "a b c d e".toList "a b c d".toList 4 5
    (by decide) (by decide) (by decide) (by decide)]
  norm_num

/-- Claim C2 (counterexample): the claim fails at similarity exactly 0.8.
The titles "a b c d" and "a b c d e" have Jaccard similarity 4/5 = 0.8, which
is greater than or equal to 0.8, yet the dedup loop of `search_papers` keeps
both papers, because the source drops a paper only when the similarity is
strictly greater than 0.8. -/
theorem search_papers_dedup_counterexample :
    _similarity_score
        (pyLower (Paper.mk "a b c d e".toList none "2021".toList).title)
        (pyLower (Paper.mk "a b c d".toList none "2020".toList).title)
      = (8 : ℚ) / 10 ∧
    dedupPapers [] [Paper.mk "a b c d".toList none "2020".toList,
        Paper.mk "a b c d e".toList none "2021".toList] =
      [Paper.mk "a b c d".toList none "2020".toList,
        Paper.mk "a b c d e".toList none "2021".toList] := by
  have hsim : _similarity_score
      (pyLower (Paper.mk "a b c d e".toList none "2021".toList).title)
      (pyLower (Paper.mk "a b c d".toList none "2020".toList).title)
      = (8 : ℚ) / 10 := by
    show _similarity_score "a b c d e".toList "a b c d".toList = (8 : ℚ) / 10
    rw [similarity_score_eval "a b c d e".toList "a b c d".toList 4 5
      (by decide) (by decide) (by decide) (by decide)]
    norm_num
  refine ⟨hsim, ?_⟩
  have h1 : isDuplicateTitle []
      (pyLower (Paper.mk "a b c d".toList none "2020".toList).title) = false := rfl
  have h2 : isDuplicateTitle
      [pyLower (Paper.mk "a b c d".toList none "2020".toList).title]
      (pyLower (Paper.mk "a b c d e".toList none "2021".toList).title) = false := by
    rw [isDuplicateTitle, List.any_eq_false]
    intro s hs
    rw [List.mem_singleton.mp hs]
    simp only [hsim, decide_eq_true_eq]
    exact lt_irrefl _
  rw [dedupPapers_cons_keep _ h1, dedupPapers_cons_keep _ h2]
  rfl

/-- Claim C2 (amended): in the merge step of `search_papers`, an incoming
paper whose lowercased title has Jaccard similarity strictly greater than 0.8
with the lowercased title of some previously kept paper is dropped, so only
one of the two survives; if the similarity with every previously kept title
is at most 0.8 (in particular, strictly less than 0.8), the paper is kept,
so both titles survive. -/
theorem search_papers_dedup_threshold (prev : List Paper) (p : Paper) (rest : List Paper) :
    ((∃ q ∈ dedupPapers [] prev,
        _similarity_score (pyLower p.title) (pyLower q.title) > (8 : ℚ) / 10) →
      dedupPapers [] (prev ++ p :: rest) =
        dedupPapers [] prev ++ dedupPapers (seenAfter [] prev) rest) ∧
    ((∀ q ∈ dedupPapers [] prev,
        _similarity_score (pyLower p.title) (pyLower q.title) ≤ (8 : ℚ) / 10) →
      dedupPapers [] (prev ++ p :: rest) =
        dedupPapers [] prev ++
          p :: dedupPapers (pyLower p.title :: seenAfter [] prev) rest) := by
  constructor
  · rintro ⟨q, hq, hsim⟩
    have hdup : isDuplicateTitle (seenAfter [] prev) (pyLower p.title) = true := by
      rw [isDuplicateTitle, List.any_eq_true]
      exact ⟨pyLower q.title, (mem_seenAfter prev [] _).mpr (Or.inr ⟨q, hq, rfl⟩),
        decide_eq_true hsim⟩
    rw [dedupPapers_append prev [] (p :: rest), dedupPapers_cons_dup _ hdup]
  · intro hall
    have hkeep : isDuplicateTitle (seenAfter [] prev) (pyLower p.title) = false := by
      rw [isDuplicateTitle, List.any_eq_false]
      intro s hs
      obtain h | ⟨q, hq, hx⟩ := (mem_seenAfter prev [] s).mp hs
      · exact absurd h (List.not_mem_nil s)
      · subst hx
        simp only [decide_eq_true_eq]
        exact not_lt.mpr (hall q hq)
    rw [dedupPapers_append prev [] (p :: rest), dedupPapers_cons_keep _ hkeep]

/-- Claim C2 witness: with a previously kept paper titled "deep learning",
the incoming paper titled "Deep Learning" (similarity 1 > 0.8) is dropped by
the merge. -/
theorem search_papers_dedup_threshold_witness :
    dedupPapers []
        [Paper.mk "deep learning".toList none "2020".toList,
          Paper.mk "Deep Learning".toList (some 3) "2021".toList] =
      [Paper.mk "deep learning".toList none "2020".toList] := by
  have h := (search_papers_dedup_threshold
      [Paper.mk "deep learning".toList none "2020".toList]
      (Paper.mk "Deep Learning".toList (some 3) "2021".toList) []).1
    ⟨Paper.mk "deep learning".toList none "2020".toList, by decide, by
      show _similarity_score "deep learning".toList "deep learning".toList > (8 : ℚ) / 10
      rw [similarity_score_eval "deep learning".toList "deep learning".toList 2 2
        (by decide) (by decide) (by decide) (by decide)]
      norm_num⟩
  exact h.trans (by decide)

/-- Result record built by `search_documents` for each returned chunk:
content, metadata bag and the (possibly missing) distance.  Distances are
modelled as exact rationals. -/
structure SearchResult where
  content : List Char
  metadata : List (List Char × List Char)
  distance : Option ℚ
deriving DecidableEq

/-- The sort key `x['distance'] or 0` of `search_documents`: a missing
(`None`) distance is treated as `0` (and a `0.0` distance also yields `0`,
the same value). -/
def searchKey (r : SearchResult) : ℚ :=
  match r.distance with
  | none => 0
  | some d => d

def searchLe (a b : SearchResult) : Bool := decide (searchKey a ≤ searchKey b)

/-- The per-collection loop of `search_documents` (lines 149-163): query each
collection, catch and skip a collection whose query raises, and append the
successful results in collection order. -/
def collectQueryResults : List (Except (List Char) (List SearchResult)) → List SearchResult
  | [] => []
  | Except.ok rs :: t => rs ++ collectQueryResults t
  | Except.error _ :: t => collectQueryResults t

/-- Model of `DocumentProcessor.search_documents` (lines 141-165).  The store
maps collection names to the outcome of `collection.query` (the chromadb
backend is external): an exception, or the result list for the query.  With a
collection name, `get_collection` raises when the name is absent; with no
name, all collections are queried.  The merged results are sorted ascending
by `distance or 0` (Python's stable `sorted`) and truncated to `n_results`. -/
def search_documents (store : List (List Char × Except (List Char) (List SearchResult)))
    (collection_name : Option (List Char)) (n_results : Nat) :
    Except (List Char) (List SearchResult) :=
  match collection_name with
  | some name =>
    match store.lookup name with
    | none => Except.error "Collection does not exist".toList
    | some col =>
      Except.ok (((collectQueryResults [col]).mergeSort searchLe).take n_results)
  | none =>
    Except.ok (((collectQueryResults (store.map Prod.snd)).mergeSort searchLe).take n_results)

lemma searchLe_trans (a b c : SearchResult) :
    searchLe a b = true → searchLe b c = true → searchLe a c = true := by
  simp only [searchLe, decide_eq_true_eq]
  exact le_trans

lemma searchLe_total (a b : SearchResult) : (searchLe a b || searchLe b a) = true := by
  simp only [searchLe, Bool.or_eq_true, decide_eq_true_eq]
  exact le_total _ _

/-- Claim C3 (confirmed): with no collection id, `search_documents` succeeds
and returns the globally merged results sorted ascending by distance with a
missing distance treated as 0 (so such results sort before any positive
distance), and the length cap `n_results` is applied after the global merge:
the output length is the minimum of `n_results` and the total number of
successfully merged results, not a per-collection cap. -/
theorem search_documents_sorted_capped
    (store : List (List Char × Except (List Char) (List SearchResult))) (n : Nat) :
    ∃ out : List SearchResult,
      search_documents store none n = Except.ok out ∧
      List.Pairwise (fun a b => searchKey a ≤ searchKey b) out ∧
      List.Pairwise (fun a b => b.distance = none → searchKey a ≤ 0) out ∧
      out.length = min n (collectQueryResults (store.map Prod.snd)).length := by
  refine ⟨((collectQueryResults (store.map Prod.snd)).mergeSort searchLe).take n,
    rfl, ?_, ?_, ?_⟩
  · have hs := List.sorted_mergeSort searchLe_trans searchLe_total
      (collectQueryResults (store.map Prod.snd))
    have hp := hs.sublist (List.take_sublist n _)
    exact hp.imp (fun h => by simpa [searchLe] using h)
  · have hs := List.sorted_mergeSort searchLe_trans searchLe_total
      (collectQueryResults (store.map Prod.snd))
    have hp := hs.sublist (List.take_sublist n _)
    refine hp.imp ?_
    intro a b h hb
    have hab : searchKey a ≤ searchKey b := by simpa [searchLe] using h
    have : searchKey b = 0 := by simp [searchKey, hb]
    rw [this] at hab
    exact hab
  · rw [List.length_take, List.length_mergeSort]

/-- Claim C10 (confirmed): calling `search_documents` with no collection id
on a store with no collections returns the empty list, not an error. -/
theorem search_documents_empty_store (n : Nat) :
    search_documents [] none n = Except.ok [] := by
  simp [search_documents, collectQueryResults]

/-- Python `' '.join(words)`. -/
def joinSpace (l : List (List Char)) : List Char := List.intercalate [' '] l

/-- Integer read of the year prefix in the sort key of `search_papers`:
`int(published.split('-')[0]) if published != 'Unknown' else 0`.  Python's
`int()` raises on a malformed numeric string; no claim exercises that path,
so the read is modelled as a digit fold. -/
def pubYear (published : List Char) : Int :=
  if published = "Unknown".toList then 0
  else ((published.takeWhile (fun c => c ≠ '-')).foldl
    (fun a c => a * 10 + ((c.toNat : Int) - ('0'.toNat : Int))) 0)

/-- Comparator realising `unique_papers.sort(key=lambda x: (citations,
year), reverse=True)`: a stable descending sort on the lexicographic pair
(citation count, publication year), with a missing citation count read as 0
(`x.get('citations', 0)`). -/
def paperSortLe (a b : Paper) : Bool :=
  decide ((b.citations.getD 0 < a.citations.getD 0) ∨
    (b.citations.getD 0 = a.citations.getD 0 ∧ pubYear b.published ≤ pubYear a.published))

/-- Model of `PaperSearcher.search_papers` (`paper_search.py` lines 116-160).
The three bibliographic sources are external: ArXiv and Semantic Scholar are
oracles taking the query and the requested result cap; Google Scholar is an
oracle stream of records whose per-record processing may raise (`none`),
consumed by the enumerate/break loop of `search_google_scholar`, which stops
at index `max_results`.  Each source is called with cap `max_results // 3`;
results are concatenated, deduplicated by title similarity, sorted and
truncated to `max_results`. -/
def search_papers (arxivO semanticO : List Char → Nat → List Paper)
    (scholarStream : List (Option Paper)) (key_terms : List (List Char))
    (max_results : Nat) : List Paper :=
  let query := joinSpace (key_terms.take 5)
  let arxiv_papers := arxivO query (max_results / 3)
  let semantic_papers := semanticO query (max_results / 3)
  let scholar_papers := (scholarStream.take (max_results / 3)).filterMap id
  let all_papers := arxiv_papers ++ semantic_papers ++ scholar_papers
  let unique_papers := dedupPapers [] all_papers
  (unique_papers.mergeSort paperSortLe).take max_results

/-- Claim C9 (confirmed): `search_papers` asks each of its three sources for
at most `max_results // 3` results; when the external sources honor the
requested cap and `max_results < 3`, every source is asked for zero results
and the returned list is empty. -/
theorem search_papers_small_max_empty (arxivO semanticO : List Char → Nat → List Paper)
    (scholarStream : List (Option Paper)) (key_terms : List (List Char))
    (max_results : Nat)
    (hA : ∀ q n, (arxivO q n).length ≤ n)
    (hS : ∀ q n, (semanticO q n).length ≤ n)
    (hm : max_results < 3) :
    search_papers arxivO semanticO scholarStream key_terms max_results = [] := by
  have h3 : max_results / 3 = 0 := Nat.div_eq_of_lt hm
  have ha : arxivO (joinSpace (key_terms.take 5)) 0 = [] :=
    List.length_eq_zero.mp (Nat.le_zero.mp (hA _ 0))
  have hs : semanticO (joinSpace (key_terms.take 5)) 0 = [] :=
    List.length_eq_zero.mp (Nat.le_zero.mp (hS _ 0))
  unfold search_papers
  simp only [h3, ha, hs]
  simp [dedupPapers]

/-- Claim C9 witness: sources that return exactly the requested number of
records, evaluated at max_results = 2. -/
theorem search_papers_small_max_empty_witness :
    search_papers
      (fun _ n => List.replicate n (Paper.mk "a".toList none "2020".toList))
      (fun _ n => List.replicate n (Paper.mk "b".toList none "2021".toList))
      [some (Paper.mk "c".toList none "2019".toList)]
      ["term".toList] 2 = [] :=
  search_papers_small_max_empty _ _ _ _ 2
    (fun _ n => by simp) (fun _ n => by simp) (by decide)

/-- The six section names of `extract_sections`, in the order of the
`section_patterns` dict (`document_processor.py` lines 86-93). -/
def sectionNames : List (List Char) :=
  ["abstract".toList, "introduction".toList, "methodology".toList,
    "results".toList, "conclusion".toList, "references".toList]

/-- The `sections` dict initialised with all six keys mapping to the empty
string (lines 76-83). -/
def initSections : List (List Char × List Char) :=
  [("abstract".toList, []), ("introduction".toList, []),
    ("methodology".toList, []), ("results".toList, []),
    ("conclusion".toList, []), ("references".toList, [])]

/-- Python dict assignment `sections[sec] = v` on an existing key. -/
def updateAssoc (k v : List Char) : List (List Char × List Char) → List (List Char × List Char)
  | [] => []
  | (k1, v1) :: t =>
    if k1 = k then (k, v) :: updateAssoc k v t else (k1, v1) :: updateAssoc k v t

/-- Python dict lookup on the association-list model. -/
def dictLookup (k : List Char) : List (List Char × List Char) → Option (List Char)
  | [] => none
  | (k1, v1) :: t => if k1 = k then some v1 else dictLookup k t

/-- The for-loop of `extract_sections` over `section_patterns.items()`:
each matched pattern overwrites its section's entry with the stripped capture
group, a miss leaves the entry unchanged. -/
def applyPatterns (reSearchO : List Char → Option (List Char))
    (names : List (List Char)) (m : List (List Char × List Char)) :
    List (List Char × List Char) :=
  names.foldl (fun sections sec =>
    match reSearchO sec with
    | some g => updateAssoc sec (pyStrip g) sections
    | none => sections) m

/-- Model of `DocumentProcessor.extract_sections` (lines 74-100).  The
pattern matching `re.search(section_patterns[sec], text, re.DOTALL)` is
external (the `re` library applied to the fixed input text and the fixed
per-section pattern); `reSearchO sec` is `match.group(1)` of that search, or
`none` when the pattern does not match the text. -/
def extract_sections (reSearchO : List Char → Option (List Char)) :
    List (List Char × List Char) :=
  applyPatterns reSearchO sectionNames initSections

lemma dictLookup_updateAssoc_ne (k v n : List Char) (h : n ≠ k) :
    ∀ m : List (List Char × List Char),
    dictLookup n (updateAssoc k v m) = dictLookup n m := by
  intro m
  induction m with
  | nil => rfl
  | cons kv t ih =>
    obtain ⟨k1, v1⟩ := kv
    by_cases hk : k1 = k
    · rw [show updateAssoc k v ((k1, v1) :: t) = (k, v) :: updateAssoc k v t from by
        simp [updateAssoc, hk]]
      show (if k = n then some v else dictLookup n (updateAssoc k v t))
        = dictLookup n ((k1, v1) :: t)
      rw [if_neg (fun he => h he.symm)]
      show _ = (if k1 = n then some v1 else dictLookup n t)
      rw [if_neg (fun he => h (he.symm.trans hk))]
      exact ih
    · rw [show updateAssoc k v ((k1, v1) :: t) = (k1, v1) :: updateAssoc k v t from by
        simp [updateAssoc, hk]]
      show (if k1 = n then some v1 else dictLookup n (updateAssoc k v t))
        = (if k1 = n then some v1 else dictLookup n t)
      by_cases hn : k1 = n
      · rw [if_pos hn, if_pos hn]
      · rw [if_neg hn, if_neg hn]
        exact ih

lemma dictLookup_updateAssoc_some (k v : List Char) :
    ∀ (m : List (List Char × List Char)) (w : List Char),
    dictLookup k m = some w → dictLookup k (updateAssoc k v m) = some v := by
  intro m
  induction m with
  | nil => intro w h; exact absurd h (by simp [dictLookup])
  | cons kv t ih =>
    obtain ⟨k1, v1⟩ := kv
    intro w h
    by_cases hk : k1 = k
    · rw [show updateAssoc k v ((k1, v1) :: t) = (k, v) :: updateAssoc k v t from by
        simp [updateAssoc, hk]]
      show (if k = k then some v else dictLookup k (updateAssoc k v t)) = some v
      rw [if_pos rfl]
    · rw [show updateAssoc k v ((k1, v1) :: t) = (k1, v1) :: updateAssoc k v t from by
        simp [updateAssoc, hk]]
      show (if k1 = k then some v1 else dictLookup k (updateAssoc k v t)) = some v
      rw [if_neg hk]
      have h' : dictLookup k t = some w := by
        have : dictLookup k ((k1, v1) :: t)
            = (if k1 = k then some v1 else dictLookup k t) := rfl
        rw [this, if_neg hk] at h
        exact h
      exact ih w h'

lemma applyPatterns_lookup_none (O : List Char → Option (List Char))
    (name : List Char) (hO : O name = none) :
    ∀ (names : List (List Char)) (m : List (List Char × List Char)),
    dictLookup name (applyPatterns O names m) = dictLookup name m := by
  intro names
  induction names with
  | nil => intro m; rfl
  | cons nm t ih =>
    intro m
    cases ho : O nm with
    | some g =>
      rw [show applyPatterns O (nm :: t) m
            = applyPatterns O t (updateAssoc nm (pyStrip g) m) from by
        simp [applyPatterns, ho]]
      rw [ih]
      refine dictLookup_updateAssoc_ne _ _ _ ?_ m
      intro he
      rw [he, ho] at hO
      exact Option.noConfusion hO
    | none =>
      rw [show applyPatterns O (nm :: t) m = applyPatterns O t m from by
        simp [applyPatterns, ho]]
      exact ih m

lemma applyPatterns_preserves_some (O : List Char → Option (List Char))
    (name : List Char) :
    ∀ (names : List (List Char)) (m : List (List Char × List Char)) (w : List Char),
    dictLookup name m = some w →
    ∃ v, dictLookup name (applyPatterns O names m) = some v := by
  intro names
  induction names with
  | nil => intro m w h; exact ⟨w, h⟩
  | cons nm t ih =>
    intro m w h
    cases ho : O nm with
    | some g =>
      rw [show applyPatterns O (nm :: t) m
            = applyPatterns O t (updateAssoc nm (pyStrip g) m) from by
        simp [applyPatterns, ho]]
      by_cases hn : name = nm
      · subst hn
        exact ih _ _ (dictLookup_updateAssoc_some name (pyStrip g) m w h)
      · refine ih _ w ?_
        rw [dictLookup_updateAssoc_ne _ _ _ hn m]
        exact h
    | none =>
      rw [show applyPatterns O (nm :: t) m = applyPatterns O t m from by
        simp [applyPatterns, ho]]
      exact ih m w h

/-- Claim C4 (confirmed): for every input (every outcome of the six pattern
searches), the map returned by `extract_sections` contains all six keys
{abstract, introduction, methodology, results, conclusion, references}, and a
section whose pattern does not match maps to the empty string, never to a
missing entry. -/
theorem extract_sections_total_keys (reSearchO : List Char → Option (List Char))
    (name : List Char) (hname : name ∈ sectionNames) :
    ∃ v, dictLookup name (extract_sections reSearchO) = some v ∧
      (reSearchO name = none → v = []) := by
  have hinit : dictLookup name initSections = some [] := by
    fin_cases hname <;> decide
  by_cases ho : reSearchO name = none
  · refine ⟨[], ?_, fun _ => rfl⟩
    rw [show extract_sections reSearchO
        = applyPatterns reSearchO sectionNames initSections from rfl]
    rw [applyPatterns_lookup_none reSearchO name ho sectionNames initSections]
    exact hinit
  · obtain ⟨v, hv⟩ :=
      applyPatterns_preserves_some reSearchO name sectionNames initSections [] hinit
    exact ⟨v, hv, fun h => absurd h ho⟩

/-- Claim C4 witness: with an oracle on which no pattern matches (as on the
empty input text), every section — here "methodology" — is present and maps
to the empty string. -/
theorem extract_sections_total_keys_witness :
    ∃ v, dictLookup "methodology".toList
        (extract_sections (fun _ => none)) = some v ∧
      ((fun (_ : List Char) => (none : Option (List Char))) "methodology".toList
          = none → v = []) :=
  extract_sections_total_keys (fun _ => none) "methodology".toList (by decide)

/-- The page loop of `extract_text_from_pdf` (`document_processor.py` lines
23-31) inside its try block: each successfully read page appends its text
plus a newline to `text`; the first failing page raises, the exception is
caught, and the accumulated `text` is returned as is. -/
def extractPagesLoop (text : List Char) : List (Option (List Char)) → List Char
  | [] => text
  | some page :: rest => extractPagesLoop (text ++ page ++ ['\n']) rest
  | none :: _ => text

/-- Model of `DocumentProcessor.extract_text_from_pdf`.  The PyPDF2 backend
is external: `none` stands for `open`/`PdfReader` raising before any page is
read, `some pages` for the page stream, where a `none` page is a page whose
`extract_text()` raises. -/
def extract_text_from_pdf : Option (List (Option (List Char))) → List Char
  | none => []
  | some pages => extractPagesLoop [] pages

lemma extractPagesLoop_eq (pages : List (Option (List Char))) :
    ∀ acc, extractPagesLoop acc pages =
      acc ++ (((pages.takeWhile Option.isSome).filterMap id).map
        (fun p => p ++ ['\n'])).flatten := by
  induction pages with
  | nil => intro acc; simp [extractPagesLoop]
  | cons p rest ih =>
    intro acc
    cases p with
    | some page =>
      rw [show extractPagesLoop acc (some page :: rest)
            = extractPagesLoop (acc ++ page ++ ['\n']) rest from rfl, ih]
      simp [List.takeWhile_cons, Option.isSome]
    | none =>
      rw [show extractPagesLoop acc (none :: rest) = acc from rfl]
      simp [List.takeWhile_cons, Option.isSome]

/-- Claim C7 (counterexample): the claim "on any read error the extractor
returns the empty string" fails.  When the first page reads "A" and the
second page read raises, `extract_text_from_pdf` returns "A\n", which is not
the empty string: the accumulated prefix survives the caught exception. -/
theorem extract_text_partial_counterexample :
    extract_text_from_pdf (some [some "A".toList, none]) = "A\n".toList ∧
    "A\n".toList ≠ ([] : List Char) := by
  constructor
  · rfl
  · decide

/-- Claim C7 (amended): `extract_text_from_pdf` never raises.  When the
open or reader construction fails it returns the empty string; a failing
page read does not abort the document: the function returns the text of the
pages successfully extracted before the failure (each followed by a newline)
— which is the empty string exactly when the error precedes the first
page — and logs the cause. -/
theorem extract_text_recovers (pages : List (Option (List Char))) :
    extract_text_from_pdf none = [] ∧
    extract_text_from_pdf (some pages) =
      (((pages.takeWhile Option.isSome).filterMap id).map
        (fun p => p ++ ['\n'])).flatten := by
  refine ⟨rfl, ?_⟩
  rw [show extract_text_from_pdf (some pages) = extractPagesLoop [] pages from rfl]
  rw [extractPagesLoop_eq pages []]
  rfl

/-- Python `paper_path.split('/')[-1]` followed by `.replace('.pdf', '')`:
drop every occurrence of the pattern, scanning left to right. -/
def removeSubAll (pat : List Char) : List Char → List Char
  | [] => []
  | c :: rest =>
    if _hne : pat ≠ [] ∧ pat.isPrefixOf (c :: rest) then
      removeSubAll pat ((c :: rest).drop pat.length)
    else
      c :: removeSubAll pat rest
termination_by l => l.length
decreasing_by
  · simp only [List.length_drop]
    have hp : 0 < pat.length := List.length_pos.mpr _hne.1
    simp only [List.length_cons]
    omega
  · simp [Nat.lt_succ_self]

/-- The title computation of `analyze_paper` (line 205):
`paper_path.split('/')[-1].replace('.pdf', '')`. -/
def pdfTitle (paper_path : List Char) : List Char :=
  removeSubAll ".pdf".toList ((paper_path.splitOn '/').getLastD [])

/-- The result dict built by `analyze_paper` on success, with the fields in
source order (`research_agent.py` lines 211-223). -/
structure AnalysisReport where
  title : List Char
  summary : List Char
  citations : List (List Char)
  objective : List Char
  introduction : List Char
  methodology : List Char
  results : List Char
  research_gap : List Char
  similar_papers : List Paper
  sections : List (List Char × List Char)
  collection_name : List Char
deriving DecidableEq

/-- Outcome of `analyze_paper`: the analysis dict, or the `{'error': ...}`
dict produced by the except clause. -/
inductive AnalyzeOutcome where
  | report : AnalysisReport → AnalyzeOutcome
  | error : List Char → AnalyzeOutcome
deriving DecidableEq

/-- Body of the try block of `analyze_paper`, with each stage that can raise
modelled as an `Except` oracle, in the evaluation order of the source:
`store_document` (chromadb/embedding backend), then the LLM-backed stages
`summarize_paper`, `extract_objective`, `extract_introduction`,
`extract_methodology`, `extract_results`, `identify_research_gap`.  The
stages `extract_text_from_pdf`, the agent's `extract_citations` and
`find_similar_papers` catch internally and never raise, so they enter as
plain values. -/
def analyzeBody (paper_path : List Char)
    (storeO : Except (List Char)
      (List Char × List (List Char × List Char) × List (List Char)))
    (summaryO objectiveO introO methodO resultsO gapO : Except (List Char) (List Char))
    (citationsO : List (List Char)) (similarO : List Paper) :
    Except (List Char) AnalysisReport := do
  let (collection_name, sections_, _citations) ← storeO
  let summary ← summaryO
  let citations := citationsO
  let objective ← objectiveO
  let introduction ← introO
  let methodology ← methodO
  let results ← resultsO
  let research_gap ← gapO
  pure ⟨pdfTitle paper_path, summary, citations, objective, introduction,
    methodology, results, research_gap, similarO, sections_, collection_name⟩

/-- Model of `ResearchAgent.analyze_paper` (lines 200-228): the try block
runs the stages; any raised exception `e` is converted into the dict
`{'error': f"Error analyzing paper: {str(e)}"}`. -/
def analyze_paper (paper_path : List Char)
    (storeO : Except (List Char)
      (List Char × List (List Char × List Char) × List (List Char)))
    (summaryO objectiveO introO methodO resultsO gapO : Except (List Char) (List Char))
    (citationsO : List (List Char)) (similarO : List Paper) : AnalyzeOutcome :=
  match analyzeBody paper_path storeO summaryO objectiveO introO methodO
      resultsO gapO citationsO similarO with
  | Except.ok analysis => AnalyzeOutcome.report analysis
  | Except.error e =>
    AnalyzeOutcome.error ("Error analyzing paper: ".toList ++ e)

/-- Claim C8 (confirmed): `analyze_paper` never lets an exception past its
boundary: for every outcome of its stages it returns either the analysis
dict or an error dict whose message wraps the raised error; in particular a
stage failure with message `e` yields exactly the `{'error': "Error
analyzing paper: " + e}` result rather than a propagated exception. -/
theorem analyze_paper_no_raise (paper_path : List Char)
    (storeO : Except (List Char)
      (List Char × List (List Char × List Char) × List (List Char)))
    (summaryO objectiveO introO methodO resultsO gapO : Except (List Char) (List Char))
    (citationsO : List (List Char)) (similarO : List Paper) :
    ((∃ r, analyze_paper paper_path storeO summaryO objectiveO introO methodO
        resultsO gapO citationsO similarO = AnalyzeOutcome.report r) ∨
      (∃ m, analyze_paper paper_path storeO summaryO objectiveO introO methodO
        resultsO gapO citationsO similarO
          = AnalyzeOutcome.error ("Error analyzing paper: ".toList ++ m))) ∧
    (∀ e, analyzeBody paper_path storeO summaryO objectiveO introO methodO
        resultsO gapO citationsO similarO = Except.error e →
      analyze_paper paper_path storeO summaryO objectiveO introO methodO
        resultsO gapO citationsO similarO
        = AnalyzeOutcome.error ("Error analyzing paper: ".toList ++ e)) := by
  constructor
  · cases hb : analyzeBody paper_path storeO summaryO objectiveO introO methodO
        resultsO gapO citationsO similarO with
    | ok r => exact Or.inl ⟨r, by simp [analyze_paper, hb]⟩
    | error e => exact Or.inr ⟨e, by simp [analyze_paper, hb]⟩
  · intro e he
    simp [analyze_paper, he]

/-- Claim C8 witness: a failing `store_document` stage is converted into the
error dict. -/
theorem analyze_paper_no_raise_witness :
    analyze_paper "papers/demo.pdf".toList (Except.error "boom".toList)
        (Except.ok "s".toList) (Except.ok "o".toList) (Except.ok "i".toList)
        (Except.ok "m".toList) (Except.ok "r".toList) (Except.ok "g".toList)
        [] []
      = AnalyzeOutcome.error "Error analyzing paper: boom".toList := by
  have h := (analyze_paper_no_raise "papers/demo.pdf".toList
      (Except.error "boom".toList) (Except.ok "s".toList) (Except.ok "o".toList)
      (Except.ok "i".toList) (Except.ok "m".toList) (Except.ok "r".toList)
      (Except.ok "g".toList) [] []).2 "boom".toList rfl
  exact h.trans (by decide)

/-- State of the regex scanner: the character before the current position
(needed by the `\b` zero-width assertion) and the remaining input. -/
structure RState where
  prev : Option Char
  rest : List Char
deriving DecidableEq

/-- A matcher step returns the possible successor states in the backtracking
preference order of the Python `re` engine (greedy repetitions yield the
longest alternative first); downstream failure falls through to the next
candidate, and the first completed candidate is the match. -/
abbrev RMatcher := RState → List RState

def rEps : RMatcher := fun s => [s]

/-- Literal character. -/
def rChar (c : Char) : RMatcher := fun s =>
  match s.rest with
  | x :: r => if x = c then [⟨some x, r⟩] else []
  | [] => []

/-- Single character of a class. -/
def rCls (p : Char → Bool) : RMatcher := fun s =>
  match s.rest with
  | x :: r => if p x then [⟨some x, r⟩] else []
  | [] => []

def rSeq (a b : RMatcher) : RMatcher := fun s => (a s).flatMap b

def rSeqs (l : List RMatcher) : RMatcher := l.foldr rSeq rEps

/-- Advance the state by `k` characters. -/
def rConsume (s : RState) (k : Nat) : RState :=
  match (s.rest.take k).getLast? with
  | some c => ⟨some c, s.rest.drop k⟩
  | none => ⟨s.prev, s.rest.drop k⟩

/-- Greedy `p*` on a character class: candidates from the longest run down
to the empty match. -/
def rClsStarGreedy (p : Char → Bool) : RMatcher := fun s =>
  let k := (s.rest.takeWhile p).length
  (List.range (k + 1)).map (fun i => rConsume s (k - i))

/-- Greedy `p+` on a character class: candidates from the longest run down
to a single character. -/
def rClsPlusGreedy (p : Char → Bool) : RMatcher := fun s =>
  let k := (s.rest.takeWhile p).length
  (List.range k).map (fun i => rConsume s (k - i))

/-- Exact repetition `p{n}` of a character class. -/
def rClsRep (p : Char → Bool) (n : Nat) : RMatcher := fun s =>
  if n ≤ (s.rest.takeWhile p).length then [rConsume s n] else []

/-- Python's `\w` (ASCII fragment), for the `\b` assertion. -/
def isWordChar (c : Char) : Bool := c.isAlphanum || c = '_'

/-- Zero-width `\b`: succeeds when exactly one side of the position is a
word character. -/
def rBoundary : RMatcher := fun s =>
  let pw := match s.prev with | some c => isWordChar c | none => false
  let nw := match s.rest with | c :: _ => isWordChar c | [] => false
  if pw ≠ nw then [s] else []

/-- A pattern split as (part before the capture group, the group, part after
the group), so the captured substring is the text the middle part consumed. -/
structure RPattern where
  pre : RMatcher
  grp : RMatcher
  post : RMatcher

/-- Try the pattern at the current position; on success return the text
captured by the group and the state after the whole match (first candidate
in backtracking order, as `re` does). -/
def runPat (pat : RPattern) (s : RState) : Option (List Char × RState) :=
  ((pat.pre s).flatMap (fun s1 =>
    (pat.grp s1).flatMap (fun s2 =>
      (pat.post s2).map (fun s3 =>
        (s1.rest.take (s1.rest.length - s2.rest.length), s3))))).head?

/-- The scan of `re.findall`: try the pattern at each position left to
right; a match is consumed (non-overlapping) and contributes its group; on
failure advance one character.  Fuel is the remaining input length plus one;
every recursive call either consumes input or ends the scan. -/
def findallAux (pat : RPattern) : Nat → RState → List (List Char)
  | 0, _ => []
  | Nat.succ fuel, s =>
    match runPat pat s with
    | some (cap, s') =>
      if s'.rest.length < s.rest.length then cap :: findallAux pat fuel s'
      else
        match s.rest with
        | [] => [cap]
        | c :: r => cap :: findallAux pat fuel ⟨some c, r⟩
    | none =>
      match s.rest with
      | [] => []
      | c :: r => findallAux pat fuel ⟨some c, r⟩

/-- Model of `re.findall(pattern, text)` returning the group-1 captures. -/
def re_findall (pat : RPattern) (text : List Char) : List (List Char) :=
  findallAux pat (text.length + 1) ⟨none, text⟩

/-- Pattern `\[(\d+)\]` — bracketed numeric citations like [1]. -/
def patBracketNum : RPattern :=
  ⟨rChar '[', rClsPlusGreedy Char.isDigit, rChar ']'⟩

/-- Pattern `\(([^)]+,\s*\d{4})\)` — parenthetical (Author, 2023). -/
def patParenAuthorYear : RPattern :=
  ⟨rChar '(',
    rSeqs [rClsPlusGreedy (fun c => c ≠ ')'), rChar ',',
      rClsStarGreedy pyWs, rClsRep Char.isDigit 4],
    rChar ')'⟩

/-- Pattern `\b([A-Z][a-z]+\s+et\s+al\.,\s*\d{4})\b` — Author et al., 2023. -/
def patEtAl : RPattern :=
  ⟨rBoundary,
    rSeqs [rCls Char.isUpper, rClsPlusGreedy Char.isLower, rClsPlusGreedy pyWs,
      rChar 'e', rChar 't', rClsPlusGreedy pyWs, rChar 'a', rChar 'l',
      rChar '.', rChar ',', rClsStarGreedy pyWs, rClsRep Char.isDigit 4],
    rBoundary⟩

/-- Pattern `\b([A-Z][a-z]+\s+and\s+[A-Z][a-z]+,\s*\d{4})\b`. -/
def patAuthorAndAuthor : RPattern :=
  ⟨rBoundary,
    rSeqs [rCls Char.isUpper, rClsPlusGreedy Char.isLower, rClsPlusGreedy pyWs,
      rChar 'a', rChar 'n', rChar 'd', rClsPlusGreedy pyWs,
      rCls Char.isUpper, rClsPlusGreedy Char.isLower, rChar ',',
      rClsStarGreedy pyWs, rClsRep Char.isDigit 4],
    rBoundary⟩

/-- Pattern `\b([A-Z][a-z]+,\s*\d{4})\b` — bare Author, 2023. -/
def patAuthorYear : RPattern :=
  ⟨rBoundary,
    rSeqs [rCls Char.isUpper, rClsPlusGreedy Char.isLower, rChar ',',
      rClsStarGreedy pyWs, rClsRep Char.isDigit 4],
    rBoundary⟩

/-- The `citation_patterns` list of `extract_citations`
(`document_processor.py` lines 59-65), in source order. -/
def citation_patterns : List RPattern :=
  [patBracketNum, patParenAuthorYear, patEtAl, patAuthorAndAuthor, patAuthorYear]

/-- Model of `DocumentProcessor.extract_citations` (lines 56-72): the five
pattern families are applied with `re.findall` and their captures
concatenated, then `list(set(citations))` removes exact duplicates.  The
order of a Python `set` is unspecified; `dedup` realises the same set of
elements. -/
def extract_citations (text : List Char) : List (List Char) :=
  ((citation_patterns.map (fun pat => re_findall pat text)).flatten).dedup

example : re_findall patBracketNum "[1] and [23]".toList = ["1".toList, "23".toList] := by
  decide

example : re_findall patParenAuthorYear "(Smith, 2020)".toList = ["Smith, 2020".toList] := by
  decide

example : extract_citations "[1] Smith, 2020 and Jones et al., 2021".toList =
    ["1".toList, "Jones et al., 2021".toList, "Smith, 2020".toList] := by decide

/-- Claim C5 (confirmed): `extract_citations` deduplicates exactly — its
result has no duplicate strings and its length equals the size of the set of
its elements (so two runs on the same text yield the same set size, the
function being deterministic) — and on the input
"[1] Smith, 2020 and Jones et al., 2021" the result contains "1", an entry
containing the year 2020 ("Smith, 2020") and an entry containing the year
2021 ("Jones et al., 2021"). -/
theorem extract_citations_dedup_spec :
    (∀ text : List Char, (extract_citations text).Nodup) ∧
    (∀ text : List Char,
      (extract_citations text).toFinset.card = (extract_citations text).length) ∧
    "1".toList ∈ extract_citations "[1] Smith, 2020 and Jones et al., 2021".toList ∧
    (∃ x ∈ extract_citations "[1] Smith, 2020 and Jones et al., 2021".toList,
      "2020".toList.IsInfix x) ∧
    (∃ x ∈ extract_citations "[1] Smith, 2020 and Jones et al., 2021".toList,
      "2021".toList.IsInfix x) := by
  refine ⟨fun _ => List.nodup_dedup _,
    fun _ => List.toFinset_card_of_nodup (List.nodup_dedup _), ?_, ?_, ?_⟩
  · decide
  · exact ⟨"Smith, 2020".toList, by decide, by decide⟩
  · exact ⟨"Jones et al., 2021".toList, by decide, by decide⟩

example : reSplitSentences "a. ".toList = ["a.".toList, []] := by decide

example : chunk_text "a. ".toList 1 1 = ["a.".toList, []] := by decide

example : chunk_text " ".toList 5 1 = [[]] := by decide

example : chunk_text "Hi there. Ok! Yes? End".toList 12 1 =
    ["Hi there.".toList, "Ok! Yes?".toList, "End".toList] := by decide

end ResearchAssistant
